import Mathlib

/-!
Verification of the dmgd (DMG/Prova) block/transaction validation core.

The development shallowly embeds the consensus-relevant parts of the
repository.  Functions present in the source tree (txscript/standard.go,
provautil/tx.go) are translated directly; components whose implementation
files are absent (blockchain/validate.go, ratelimit.go, merkle.go,
keyviewpoint.go, utxoviewpoint.go, chain.go) are modelled from the
specification document, guided by the repository's tests, and each such
definition is marked "Modelled from the spec".
-/

deriving instance DecidableEq for Except

namespace Dmgd

/-- Error kinds of the validation core (spec section 7 plus the generic
sanity errors of the btcd lineage). -/
inductive Err where
  | errInvalidAdminTx
  | errInvalidAdminOp
  | errInvalidTx
  | errMissingTx
  | errSpendTooHigh
  | errFeeTooHigh
  | errBadCoinbaseValue
  | errBadTxOutValue
  | errNoTxInputs
  | errNoTxOutputs
  | errDuplicateTxInputs
  deriving DecidableEq, Repr

/-! ## Script opcodes and parsed scripts (txscript/standard.go) -/

def OP_0 : Nat := 0
def OP_PUSHDATA4 : Nat := 78
def OP_1 : Nat := 81
def OP_2 : Nat := 82
def OP_3 : Nat := 83
def OP_16 : Nat := 96
def OP_RETURN : Nat := 106
def OP_CHECKSAFEMULTISIG : Nat := 186
def OP_CHECKTHREAD : Nat := 187
def OP_DATA_20 : Nat := 20
def OP_DATA_34 : Nat := 34
def OP_DATA_38 : Nat := 38

/-- A parsed script opcode: the opcode byte value and the pushed data
bytes (empty for non-push opcodes).  Scripts are modelled at the parsed
level; the byte-level parser of the script engine is out of scope. -/
structure ParsedOpcode where
  value : Nat
  data : List Nat
  deriving DecidableEq, Repr

/-- Go txscript.isSmallInt: OP_0 or OP_1 through OP_16. -/
def isSmallIntV (v : Nat) : Bool := v == OP_0 || (OP_1 ≤ v && v ≤ OP_16)

/-- Go txscript.asSmallInt: the integer a small-int opcode pushes. -/
def asSmallInt (v : Nat) : Nat := if v == OP_0 then 0 else v - 80

/-- Modelled from the spec: txscript's isUint32 (its source file is not in
scope) holds for opcodes that push an unsigned 32-bit value: the small-int
opcodes and direct data pushes of one to four bytes. -/
def isUint32V (v : Nat) : Bool := isSmallIntV v || (1 ≤ v && v ≤ 4)

/-- Little-endian byte-list decoding. -/
def leNat : List Nat → Nat
  | [] => 0
  | b :: bs => b + 256 * leNat bs

/-- Modelled from the spec: txscript's asInt32 (source file not in scope)
decodes a pushed value, failing on pushes longer than four bytes. -/
def asInt32 (p : ParsedOpcode) : Option Nat :=
  if isSmallIntV p.value then some (asSmallInt p.value)
  else if p.data.length ≤ 4 then some (leNat p.data)
  else none

/-- The middle-section scan of isGeneralProva: walks the pushes between
the m and n opcodes, counting key-ids and 20-byte key hashes, with the
seen-key-id list; returns none where the Go loop returns false. -/
def scanProva : List ParsedOpcode → Nat → Nat → List Nat →
    Option (Nat × Nat × List Nat)
  | [], nIDs, nHashes, seen => some (nIDs, nHashes, seen)
  | p :: ps, nIDs, nHashes, seen =>
    if p.data.length == 20 then
      if nIDs > 0 then none
      else scanProva ps nIDs (nHashes + 1) seen
    else if isUint32V p.value then
      match asInt32 p with
      | none => none
      | some kid =>
        if seen.contains kid then none
        else scanProva ps (nIDs + 1) nHashes (kid :: seen)
    else scanProva ps nIDs nHashes seen

/-- Translation of txscript.isGeneralProva (standard.go lines 84-157). -/
def isGeneralProva (pops : List ParsedOpcode) : Bool :=
  if pops.length < 6 then false
  else
    match pops with
    | [] => false
    | p0 :: rest =>
      match rest.reverse with
      | pLast :: pN :: midRev =>
        let mid := midRev.reverse
        if !isSmallIntV p0.value then false
        else if !isSmallIntV pN.value then false
        else if pLast.value != OP_CHECKSAFEMULTISIG then false
        else
          let nSigs := asSmallInt p0.value
          let nKeys := asSmallInt pN.value
          if nSigs < 2 then false
          else if pops.length - 3 != nKeys then false
          else
            match scanProva mid 0 0 [] with
            | none => false
            | some (nKeyIDs, nKeyHashes, _) =>
              if nKeyHashes ≥ nSigs then false
              else if nKeyIDs < nSigs then false
              else true
      | _ => false

/-- Translation of txscript.isProva (standard.go lines 160-180). -/
def isProva (pops : List ParsedOpcode) : Bool :=
  if pops.length < 6 then false
  else if !isGeneralProva pops then false
  else
    let p0v := ((pops.headD ⟨0, []⟩).value)
    let p4v := ((pops.drop 4).headD ⟨0, []⟩).value
    if pops.length == 6 && p0v == OP_2 && p4v == OP_3 then true
    else
      let m := asSmallInt p0v
      let n := asSmallInt (((pops.drop (pops.length - 2)).headD ⟨0, []⟩).value)
      m == n - 1

/-- Translation of txscript.isNullData (standard.go lines 315-329). -/
def isNullData (pops : List ParsedOpcode) : Bool :=
  match pops with
  | [p] => p.value == OP_RETURN
  | [p0, p1] =>
    p0.value == OP_RETURN &&
      (isSmallIntV p1.value || p1.value ≤ OP_PUSHDATA4) &&
      p1.data.length ≤ 80
  | _ => false

/-- Translation of txscript.isProvaAdmin (standard.go lines 251-264).
Thread ids: Root 0, Provision 1, Issue 2. -/
def isProvaAdmin (pops : List ParsedOpcode) : Bool :=
  match pops with
  | [p0, p1] =>
    p1.value == OP_CHECKTHREAD &&
      (p0.value == OP_0 || (OP_1 ≤ p0.value && p0.value ≤ OP_2))
  | _ => false

/-- Script classes recognized by the classifier. -/
inductive ScriptClass where
  | nonStandardTy
  | nullDataTy
  | provaTy
  | generalProvaTy
  | provaAdminTy
  deriving DecidableEq, Repr

/-- Translation of txscript.typeOfScript (standard.go lines 339-350). -/
def typeOfScript (pops : List ParsedOpcode) : ScriptClass :=
  if isNullData pops then .nullDataTy
  else if isProva pops then .provaTy
  else if isGeneralProva pops then .generalProvaTy
  else if isProvaAdmin pops then .provaAdminTy
  else .nonStandardTy

/-! ## Wire transactions and provautil.Tx (provautil/tx.go) -/

/-- Outpoint: transaction hash plus 32-bit output index.  Hashes are
modelled as opaque naturals. -/
structure OutPoint where
  hash : Nat
  index : Nat
  deriving DecidableEq, Repr

/-- Coinbase inputs carry this previous-output index (wire.MaxPrevOutIndex). -/
def MaxPrevOutIndex : Nat := 4294967295

/-- Transaction input.  The signature script does not enter any of the
verified rules and is omitted. -/
structure TxIn where
  prevOut : OutPoint
  sequence : Nat
  deriving DecidableEq, Repr

/-- Transaction output: value in Atoms and the (parsed) pkScript. -/
structure TxOut where
  value : Int
  pkScript : List ParsedOpcode
  deriving DecidableEq, Repr

/-- Wire transaction. -/
structure MsgTx where
  version : Int
  txIn : List TxIn
  txOut : List TxOut
  lockTime : Nat
  deriving DecidableEq, Repr

/-- provautil.TxIndexUnknown. -/
def TxIndexUnknown : Int := -1

/-- provautil.Tx: a wire transaction together with its stored position
within a block (cached hashes are omitted). -/
structure Tx where
  msgTx : MsgTx
  txIndex : Int
  deriving DecidableEq, Repr

/-- Translation of provautil Tx.IsCoinbase (tx.go lines 34-36). -/
def Tx.isCoinbase (t : Tx) : Bool := t.txIndex == 0

/-- Translation of provautil.NewTx (tx.go lines 85-90). -/
def newTx (m : MsgTx) : Tx := ⟨m, TxIndexUnknown⟩

/-- Translation of provautil Tx.SetIndex (tx.go lines 79-81). -/
def Tx.setIndex (t : Tx) (index : Int) : Tx := { t with txIndex := index }

/-- Translation of provautil Tx.Index (tx.go lines 74-76). -/
def Tx.index (t : Tx) : Int := t.txIndex

/-! ## Sequence locks (blockchain SequenceLockActive) -/

/-- Relative lock-time limits of blockchain.SequenceLock: the block height
and median-time-past (unix seconds) that must both be surpassed. -/
structure SequenceLock where
  seconds : Int
  blockHeight : Int
  deriving DecidableEq, Repr

/-- Modelled from the spec: blockchain.SequenceLockActive (validate.go not
in scope; spec section 4.7): the lock is active when the current block
height is strictly above the height lock and the median time past strictly
exceeds the time lock.  Matches every row of TestSequenceLocksActive. -/
def SequenceLockActive (sl : SequenceLock) (blockHeight : Int) (mtp : Int) : Bool :=
  sl.blockHeight < blockHeight && sl.seconds < mtp

/-! ## Rate-limited generation (blockchain IsGenerationShareRateLimited) -/

/-- Modelled from the spec: blockchain.IsGenerationShareRateLimited
(ratelimit.go not in scope).  The proposing validator key is rate limited
exactly when it signed all of the most recent maxBlocks blocks, i.e. the
window of the last maxBlocks recent signers (most-recent-first) is full and
consists entirely of that key.  This is the unique reading consistent with
all four checks of TestIsGenerationShareRateLimited and with spec section 8
scenario 9; the spec's extra arguments (a flag and a second key, constant
throughout the repository's test) do not influence the result there and are
carried unused. -/
def IsGenerationShareRateLimited (key : Nat) (recentSigners : List Nat)
    (maxBlocks : Nat) (_flag : Bool) (_otherKey : Nat) : Bool :=
  maxBlocks ≤ ((recentSigners.take maxBlocks).filter (fun k => k == key)).length

/-! ## Merkle tree (blockchain.BuildMerkleTreeStore) -/

/-- One level of the merkle tree: hash adjacent pairs, duplicating the
last node when the level has an odd number of nodes.  The combining
function abstracts HashMerkleBranches, i.e. doubleSHA256 of the
concatenation of the two child hashes. -/
def merklePass (f : Nat → Nat → Nat) : List Nat → List Nat
  | [] => []
  | [a] => [f a a]
  | a :: b :: rest => f a b :: merklePass f rest

theorem merklePass_length (f : Nat → Nat → Nat) (l : List Nat) :
    (merklePass f l).length = (l.length + 1) / 2 := by
  induction l using merklePass.induct f with
  | case1 => simp [merklePass]
  | case2 a => simp [merklePass]
  | case3 a b rest ih =>
    simp only [merklePass, List.length_cons, ih]
    omega

/-- Modelled from the spec: the root of blockchain.BuildMerkleTreeStore
(merkle.go not in scope; spec section 4.1): levels are built by pairwise
hashing, duplicating the last node of a level with an odd number of nodes;
the recursion stops when a single node — the root — remains, and zero
leaves give the zero hash. -/
def buildMerkleRoot (f : Nat → Nat → Nat) (leaves : List Nat) : Nat :=
  match leaves with
  | [] => 0
  | [t] => t
  | a :: b :: rest => buildMerkleRoot f (merklePass f (a :: b :: rest))
termination_by leaves.length
decreasing_by
  simp only [merklePass, List.length_cons, merklePass_length]
  omega

/-! ## Small list lemmas -/

theorem filter_length_le {α : Type} (p : α → Bool) (l : List α) :
    (l.filter p).length ≤ l.length := by
  induction l with
  | nil => simp
  | cons a l ih =>
    by_cases h : p a <;> simp [List.filter_cons, h] <;> omega

theorem filter_length_eq_iff {α : Type} (p : α → Bool) (l : List α) :
    (l.filter p).length = l.length ↔ ∀ a ∈ l, p a = true := by
  induction l with
  | nil => simp
  | cons a l ih =>
    by_cases h : p a
    · simp [List.filter_cons, h, ih]
    · simp only [List.filter_cons, h, if_neg, Bool.false_eq_true, ite_false,
        List.length_cons, List.mem_cons]
      constructor
      · intro hlen
        exact absurd hlen (by have := filter_length_le p l; omega)
      · intro hall
        exact absurd (hall a (Or.inl rfl)) (by simp [h])

/-! ## Claim theorems: C10, C8 (counterexample), C3, C7, C9 -/

/-- C10: Tx.IsCoinbase is determined solely by the stored block index: it
holds exactly when the index is 0, a freshly constructed Tx (index
TxIndexUnknown = -1) is never a coinbase whatever its inputs look like,
and any Tx whose index was set to 0 is a coinbase regardless of its
inputs' shape. -/
theorem c10_isCoinbase_by_index_only :
    (∀ t : Tx, t.isCoinbase = true ↔ t.txIndex = 0) ∧
    (∀ m : MsgTx, (newTx m).isCoinbase = false) ∧
    (∀ t : Tx, (t.setIndex 0).isCoinbase = true) := by
  refine ⟨fun t => ?_, fun m => ?_, fun t => ?_⟩
  · simp [Tx.isCoinbase]
  · simp [Tx.isCoinbase, newTx, TxIndexUnknown]
  · simp [Tx.isCoinbase, Tx.setIndex]

/-- A script accepted by the classifier as GeneralProva although it
contains two 20-byte pushes: 3 h1 h2 kid1 kid2 kid3 5 OP_CHECKSAFEMULTISIG. -/
def twoHashScript : List ParsedOpcode :=
  [⟨83, []⟩, ⟨20, List.replicate 20 1⟩, ⟨20, List.replicate 20 2⟩,
   ⟨81, []⟩, ⟨82, []⟩, ⟨83, []⟩, ⟨85, []⟩, ⟨186, []⟩]

/-- C8 counterexample: the classifier returns GeneralProva for a script
with two 20-byte pushes, contradicting the claim that Prova or
GeneralProva is returned only when there is exactly one 20-byte push. -/
theorem c8_counterexample_two_pkhashes :
    typeOfScript twoHashScript = .generalProvaTy ∧
      (twoHashScript.filter (fun p => p.data.length == 20)).length = 2 := by
  decide

/-- C3 counterexample: with maxBlocks = 2, a proposer whose key appears in
the recent-signers list (the repository test's whenUnderLimit case) is not
rate-limited, contradicting the claim that a key present anywhere in the
list is always rate-limited. -/
theorem c3_counterexample_present_but_unlimited :
    IsGenerationShareRateLimited 0 [0] 2 false 0 = false ∧ (0 : Nat) ∈ [0] := by
  decide

/-- C3 (amended): the proposed key is rate-limited exactly when the window
of the last maxBlocks recent signers is full and consists entirely of that
key; a key absent from the list is never rate-limited. -/
theorem c3_rate_limited_iff_window_filled (key : Nat) (chain : List Nat)
    (maxBlocks : Nat) (flag : Bool) (otherKey : Nat) (hpos : 0 < maxBlocks) :
    (IsGenerationShareRateLimited key chain maxBlocks flag otherKey = true ↔
      maxBlocks ≤ chain.length ∧ ∀ k ∈ chain.take maxBlocks, k = key) ∧
    (key ∉ chain →
      IsGenerationShareRateLimited key chain maxBlocks flag otherKey = false) := by
  constructor
  · unfold IsGenerationShareRateLimited
    have hle : ((chain.take maxBlocks).filter (fun k => k == key)).length ≤
        (chain.take maxBlocks).length := filter_length_le _ _
    have htl : (chain.take maxBlocks).length = min maxBlocks chain.length :=
      List.length_take _ _
    constructor
    · intro h
      have hc : maxBlocks ≤ chain.length := by
        rw [htl] at hle
        simp only [decide_eq_true_eq] at h
        omega
      have heq : ((chain.take maxBlocks).filter (fun k => k == key)).length =
          (chain.take maxBlocks).length := by
        simp only [decide_eq_true_eq] at h
        omega
      refine ⟨hc, fun k hk => ?_⟩
      have := (filter_length_eq_iff (fun k => k == key) (chain.take maxBlocks)).mp
        heq k hk
      simpa using this
    · rintro ⟨hc, hall⟩
      have heq : ((chain.take maxBlocks).filter (fun k => k == key)).length =
          (chain.take maxBlocks).length := by
        refine (filter_length_eq_iff _ _).mpr fun a ha => ?_
        simp [hall a ha]
      simp only [decide_eq_true_eq]
      omega
  · intro hnot
    unfold IsGenerationShareRateLimited
    have hnil : (chain.take maxBlocks).filter (fun k => k == key) = [] := by
      refine List.filter_eq_nil_iff.mpr fun a ha => ?_
      have : a ∈ chain := List.mem_of_mem_take ha
      simp only [beq_iff_eq]
      intro hcontra
      exact hnot (hcontra ▸ this)
    rw [hnil]
    simp only [List.length_nil, decide_eq_false_iff_not, not_le]
    omega

/-- Witness for c3_rate_limited_iff_window_filled at a concrete input. -/
theorem c3_rate_limited_witness :
    IsGenerationShareRateLimited 0 [0, 0, 1] 2 false 0 = true ∧
      IsGenerationShareRateLimited 5 [0, 0, 1] 2 false 0 = false :=
  ⟨(c3_rate_limited_iff_window_filled 0 [0, 0, 1] 2 false 0 (by decide)).1.mpr
      (by decide),
    (c3_rate_limited_iff_window_filled 5 [0, 0, 1] 2 false 0 (by decide)).2
      (by decide)⟩

/-- C7: a sequence lock is active exactly when the block height strictly
exceeds the height lock and the median time past strictly exceeds the
time lock; at the boundary a height lock h is inactive at height h and
active at h + 1, and a time lock t is inactive at median time past t and
active at t + 1. -/
theorem c7_sequence_lock_active_boundaries :
    (∀ heightLock timeLock h mtp : Int,
      SequenceLockActive ⟨timeLock, heightLock⟩ h mtp = true ↔
        heightLock < h ∧ timeLock < mtp) ∧
    (∀ h mtp : Int, 0 ≤ mtp →
      SequenceLockActive ⟨-1, h⟩ h mtp = false ∧
      SequenceLockActive ⟨-1, h⟩ (h + 1) mtp = true) ∧
    (∀ t h : Int, 0 ≤ h →
      SequenceLockActive ⟨t, -1⟩ h t = false ∧
      SequenceLockActive ⟨t, -1⟩ h (t + 1) = true) := by
  refine ⟨fun hl tl h mtp => ?_, fun h mtp hmtp => ⟨?_, ?_⟩,
    fun t h hh => ⟨?_, ?_⟩⟩ <;>
    simp only [SequenceLockActive, Bool.and_eq_true, decide_eq_true_eq,
      Bool.and_eq_false_iff, decide_eq_false_iff_not, not_lt] <;>
    omega

/-- Witness for c7_sequence_lock_active_boundaries at the concrete inputs
of TestSequenceLocksActive. -/
theorem c7_sequence_lock_witness :
    SequenceLockActive ⟨-1, 1000⟩ (1000 + 1) 9 = true ∧
      SequenceLockActive ⟨-1, 1000⟩ 1000 9 = false ∧
      SequenceLockActive ⟨30, -1⟩ 2 (30 + 1) = true ∧
      SequenceLockActive ⟨30, -1⟩ 2 30 = false :=
  ⟨(c7_sequence_lock_active_boundaries.2.1 1000 9 (by decide)).2,
    (c7_sequence_lock_active_boundaries.2.1 1000 9 (by decide)).1,
    (c7_sequence_lock_active_boundaries.2.2 30 2 (by decide)).2,
    (c7_sequence_lock_active_boundaries.2.2 30 2 (by decide)).1⟩

/-- C9 counterexample: for a one-transaction block the merkle builder
returns the transaction id itself, not the hash of the id paired with
itself: with the combining function a b ↦ a + b + 1 and leaf 5 the root is
5 while the claimed value would be 11. -/
theorem c9_counterexample_single_leaf :
    ¬ (buildMerkleRoot (fun a b => a + b + 1) [5] =
        (fun a b : Nat => a + b + 1) 5 5) := by
  rw [buildMerkleRoot]
  decide

/-- C9 (amended): for a block with exactly one transaction the merkle root
is the coinbase transaction id itself; duplication of the last node occurs
at levels holding an odd number of at least two nodes, e.g. the root of
three leaves is H(H(a,b), H(c,c)). -/
theorem c9_merkle_root_single_and_duplication :
    (∀ (f : Nat → Nat → Nat) (t : Nat), buildMerkleRoot f [t] = t) ∧
    (∀ (f : Nat → Nat → Nat) (a b : Nat), buildMerkleRoot f [a, b] = f a b) ∧
    (∀ (f : Nat → Nat → Nat) (a b c : Nat),
      buildMerkleRoot f [a, b, c] = f (f a b) (f c c)) := by
  refine ⟨fun f t => ?_, fun f a b => ?_, fun f a b c => ?_⟩
  · rw [buildMerkleRoot]
  · rw [buildMerkleRoot]
    simp [merklePass, buildMerkleRoot]
  · rw [buildMerkleRoot]
    simp [merklePass, buildMerkleRoot]

/-! ## Key-state view and admin operations (blockchain keyviewpoint)

Modelled from the spec: keyviewpoint.go and the admin-op part of
CheckTransactionOutputs are not under src/.  The view holds the per-role
admin key sets, the ASP key-id map and lastKeyID (spec section 4.4);
operations of one transaction are validated in output order against the
evolving view (spec section 4.6), which is the reading consistent with
TestCheckTransactionOutputs and the b16-b18 blocks of the full-block
tests. -/

/-- Admin key roles (btcec.KeySetType). -/
inductive KeySetType where
  | rootKeySet
  | issueKeySet
  | provisionKeySet
  | validateKeySet
  deriving DecidableEq, Repr

/-- Maximum size of an admin key set (blockchain.MaxAdminKeySetSize). -/
def MaxAdminKeySetSize : Nat := 10

/-- Key-state view: per-role key sets, ASP key-id map, last issued key id.
Public keys are opaque naturals standing for the serialized compressed
form. -/
structure KeyView where
  keySets : KeySetType → List Nat
  aspKeyIdMap : Nat → Option Nat
  lastKeyID : Nat

/-- Decoded admin operation of an admin transaction output. -/
inductive AdminOp where
  | aspKeyAdd (pk kid : Nat)
  | aspKeyRevoke (pk kid : Nat)
  | keyAdd (kst : KeySetType) (pk : Nat)
  | keyRevoke (kst : KeySetType) (pk : Nat)
  deriving DecidableEq, Repr

/-- Point update of the ASP key-id map. -/
def setKid (m : Nat → Option Nat) (kid : Nat) (v : Option Nat) :
    Nat → Option Nat :=
  fun k => if k = kid then v else m k

/-- Modelled from the spec: validation and application of one admin
operation against the evolving key view (spec section 4.4): an ASPKeyAdd
must use an unmapped key id that does not skip past lastKeyID + 1 and
advances lastKeyID to the maximum; an ASPKeyRevoke must name a mapped key
id with the matching public key and never decreases lastKeyID; role-set
adds reject duplicates and overfull sets, revokes reject absent keys.
Each violation is ErrInvalidAdminOp. -/
def applyAdminOp (kv : KeyView) : AdminOp → Except Err KeyView
  | .aspKeyAdd pk kid =>
    match kv.aspKeyIdMap kid with
    | some _ => .error .errInvalidAdminOp
    | none =>
      if kv.lastKeyID + 1 < kid then .error .errInvalidAdminOp
      else .ok { kv with
        aspKeyIdMap := setKid kv.aspKeyIdMap kid (some pk),
        lastKeyID := max kv.lastKeyID kid }
  | .aspKeyRevoke pk kid =>
    match kv.aspKeyIdMap kid with
    | none => .error .errInvalidAdminOp
    | some pk' =>
      if pk' ≠ pk then .error .errInvalidAdminOp
      else .ok { kv with aspKeyIdMap := setKid kv.aspKeyIdMap kid none }
  | .keyAdd kst pk =>
    if (kv.keySets kst).contains pk then .error .errInvalidAdminOp
    else if MaxAdminKeySetSize ≤ (kv.keySets kst).length then
      .error .errInvalidAdminOp
    else .ok { kv with
      keySets := fun s => if s = kst then pk :: kv.keySets kst else kv.keySets s }
  | .keyRevoke kst pk =>
    if (kv.keySets kst).contains pk then
      .ok { kv with
        keySets := fun s => if s = kst then (kv.keySets kst).erase pk
          else kv.keySets s }
    else .error .errInvalidAdminOp

/-- Validation of the admin operations of one transaction, in output
order, each against the view produced by its predecessors. -/
def checkAdminOps (kv : KeyView) : List AdminOp → Except Err KeyView
  | [] => .ok kv
  | op :: ops =>
    match applyAdminOp kv op with
    | .error e => .error e
    | .ok kv1 => checkAdminOps kv1 ops

theorem checkAdminOps_append (kv : KeyView) (l1 l2 : List AdminOp) :
    checkAdminOps kv (l1 ++ l2) =
      match checkAdminOps kv l1 with
      | .error e => .error e
      | .ok kv1 => checkAdminOps kv1 l2 := by
  induction l1 generalizing kv with
  | nil => simp [checkAdminOps]
  | cons op ops ih =>
    simp only [List.cons_append, checkAdminOps]
    cases applyAdminOp kv op with
    | error e => rfl
    | ok kv1 => exact ih kv1

/-- A run of ASPKeyAdd operations allocating the consecutive key ids
L+1, L+2, ... for the given public keys. -/
def runAdds : Nat → List Nat → List AdminOp
  | _, [] => []
  | lastId, pk :: pks => .aspKeyAdd pk (lastId + 1) :: runAdds (lastId + 1) pks

theorem runAdds_spec (pks : List Nat) : ∀ kv : KeyView,
    (∀ i < pks.length, kv.aspKeyIdMap (kv.lastKeyID + 1 + i) = none) →
    ∃ kvf, checkAdminOps kv (runAdds kv.lastKeyID pks) = .ok kvf ∧
      kvf.lastKeyID = kv.lastKeyID + pks.length ∧
      (∀ k, kv.lastKeyID + pks.length < k →
        kvf.aspKeyIdMap k = kv.aspKeyIdMap k) ∧
      (∀ k, kv.lastKeyID + 1 ≤ k → k ≤ kv.lastKeyID + pks.length →
        (kvf.aspKeyIdMap k).isSome = true) ∧
      (∀ k, k ≤ kv.lastKeyID → kvf.aspKeyIdMap k = kv.aspKeyIdMap k) := by
  induction pks with
  | nil =>
    intro kv _
    refine ⟨kv, rfl, by simp, fun k _ => rfl, fun k h1 h2 => ?_, fun k _ => rfl⟩
    simp only [List.length_nil, Nat.add_zero] at h2
    omega
  | cons pk pks ih =>
    intro kv hfresh
    have h0 : kv.aspKeyIdMap (kv.lastKeyID + 1) = none := by
      have := hfresh 0 (by simp)
      simpa using this
    have hstep : applyAdminOp kv (.aspKeyAdd pk (kv.lastKeyID + 1)) =
        .ok { kv with
          aspKeyIdMap := setKid kv.aspKeyIdMap (kv.lastKeyID + 1) (some pk),
          lastKeyID := kv.lastKeyID + 1 } := by
      simp [applyAdminOp, h0, Nat.max_eq_right (Nat.le_succ _)]
    have hfresh1 : ∀ i < pks.length,
        setKid kv.aspKeyIdMap (kv.lastKeyID + 1) (some pk)
          (kv.lastKeyID + 1 + 1 + i) = none := by
      intro i hi
      unfold setKid
      rw [if_neg (by omega)]
      have := hfresh (i + 1) (by simpa using Nat.succ_lt_succ hi)
      convert this using 2
      omega
    obtain ⟨kvf, hrun, hlast, hhigh, hmid, hlow⟩ :=
      ih { kv with
        aspKeyIdMap := setKid kv.aspKeyIdMap (kv.lastKeyID + 1) (some pk),
        lastKeyID := kv.lastKeyID + 1 } hfresh1
    simp only at hrun hlast hhigh hmid hlow
    refine ⟨kvf, ?_, ?_, ?_, ?_, ?_⟩
    · show checkAdminOps kv
        (.aspKeyAdd pk (kv.lastKeyID + 1) :: runAdds (kv.lastKeyID + 1) pks) =
        .ok kvf
      rw [checkAdminOps, hstep]
      exact hrun
    · simp only [List.length_cons]
      omega
    · intro k hk
      simp only [List.length_cons] at hk
      have h1 : kvf.aspKeyIdMap k =
          setKid kv.aspKeyIdMap (kv.lastKeyID + 1) (some pk) k :=
        hhigh k (by omega)
      rw [h1]
      unfold setKid
      rw [if_neg (by omega)]
    · intro k h1 h2
      simp only [List.length_cons] at h2
      by_cases hk : k = kv.lastKeyID + 1
      · have h3 : kvf.aspKeyIdMap k =
            setKid kv.aspKeyIdMap (kv.lastKeyID + 1) (some pk) k :=
          hlow k (by omega)
        rw [h3, hk]
        simp [setKid]
      · exact hmid k (by omega) (by omega)
    · intro k hk
      have h3 : kvf.aspKeyIdMap k =
          setKid kv.aspKeyIdMap (kv.lastKeyID + 1) (some pk) k :=
        hlow k (by omega)
      rw [h3]
      unfold setKid
      rw [if_neg (by omega)]

/-- C4: validating the admin-op outputs of one Provision-thread
transaction in output order with lastKeyID = L at entry, a run of
ASPKeyAdd operations allocating the consecutive key ids L+1, L+2, ... is
accepted in full; an ASPKeyAdd that skips past lastKeyID plus the count of
prior ASPKeyAdds in the transaction plus one, or repeats a key id added
earlier in the same transaction, or uses an already mapped key id, fails
with ErrInvalidAdminOp. -/
theorem c4_asp_keyid_allocation (kv : KeyView) (pks : List Nat)
    (hfresh : ∀ i < pks.length, kv.aspKeyIdMap (kv.lastKeyID + 1 + i) = none) :
    (∃ kvf, checkAdminOps kv (runAdds kv.lastKeyID pks) = .ok kvf) ∧
    (∀ pk kid, kv.lastKeyID + pks.length + 1 < kid →
      checkAdminOps kv (runAdds kv.lastKeyID pks ++ [.aspKeyAdd pk kid]) =
        .error .errInvalidAdminOp) ∧
    (∀ pk kid, kv.lastKeyID + 1 ≤ kid → kid ≤ kv.lastKeyID + pks.length →
      checkAdminOps kv (runAdds kv.lastKeyID pks ++ [.aspKeyAdd pk kid]) =
        .error .errInvalidAdminOp) ∧
    (∀ pk pk1 kid, kv.aspKeyIdMap kid = some pk1 →
      checkAdminOps kv [.aspKeyAdd pk kid] = .error .errInvalidAdminOp) := by
  obtain ⟨kvf, hrun, hlast, hhigh, hmid, hlow⟩ := runAdds_spec pks kv hfresh
  refine ⟨⟨kvf, hrun⟩, ?_, ?_, ?_⟩
  · intro pk kid hskip
    rw [checkAdminOps_append, hrun]
    show checkAdminOps kvf [.aspKeyAdd pk kid] = .error .errInvalidAdminOp
    rw [checkAdminOps]
    cases hmap : kvf.aspKeyIdMap kid with
    | some pk2 => simp [applyAdminOp, hmap]
    | none =>
      have : kvf.lastKeyID + 1 < kid := by omega
      simp [applyAdminOp, hmap, this]
  · intro pk kid h1 h2
    rw [checkAdminOps_append, hrun]
    show checkAdminOps kvf [.aspKeyAdd pk kid] = .error .errInvalidAdminOp
    rw [checkAdminOps]
    have hsome := hmid kid h1 h2
    cases hmap : kvf.aspKeyIdMap kid with
    | some pk2 => simp [applyAdminOp, hmap]
    | none => rw [hmap] at hsome; simp at hsome
  · intro pk pk1 kid hmap
    rw [checkAdminOps]
    simp [applyAdminOp, hmap]

/-- A concrete key view for the witness: last issued key id 4 with key ids
1 through 4 mapped, as in the b16-b18 scenario of the full-block tests. -/
def kvB16 : KeyView where
  keySets := fun _ => [101, 102]
  aspKeyIdMap := fun k => if 1 ≤ k ∧ k ≤ 4 then some 99 else none
  lastKeyID := 4

/-- Witness for c4_asp_keyid_allocation: with prior lastKeyID 4, adds of
key ids 5 then 6 are accepted; a skip to key id 8, a repeat of key id 5,
and reuse of the mapped key id 3 each fail with ErrInvalidAdminOp. -/
theorem c4_asp_keyid_allocation_witness :
    (∃ kvf, checkAdminOps kvB16 (runAdds kvB16.lastKeyID [11, 12]) = .ok kvf) ∧
    checkAdminOps kvB16 (runAdds kvB16.lastKeyID [11, 12] ++
      [.aspKeyAdd 13 8]) = .error .errInvalidAdminOp ∧
    checkAdminOps kvB16 (runAdds kvB16.lastKeyID [11, 12] ++
      [.aspKeyAdd 13 5]) = .error .errInvalidAdminOp ∧
    checkAdminOps kvB16 [.aspKeyAdd 13 3] = .error .errInvalidAdminOp := by
  have hfresh : ∀ i < ([11, 12] : List Nat).length,
      kvB16.aspKeyIdMap (kvB16.lastKeyID + 1 + i) = none := by decide
  obtain ⟨hok, hskip, hrep, hmapped⟩ :=
    c4_asp_keyid_allocation kvB16 [11, 12] hfresh
  exact ⟨hok, hskip 13 8 (by decide), hrep 13 5 (by decide) (by decide),
    hmapped 13 99 3 (by decide)⟩

/-! ## Chain state with journaled apply/undo (blockchain C4/C5/C8)

Modelled from the spec: utxoviewpoint.go and the admin-thread state
machine are not under src/.  The chain state holds the UTXO view, the
admin key sets, the ASP key-id map with lastKeyID, the three thread tips
and the token supply (spec sections 4.4, 4.5, 4.8).  A block's effect is a
sequence of journaled primitive mutations; undo restores every field from
the journal in reverse order. -/

/-- A UTXO entry: the output, its creating block height and the coinbase
flag (spec section 4.5). -/
structure UtxoEntry where
  value : Int
  pkScript : List ParsedOpcode
  height : Nat
  isCoinbase : Bool
  deriving DecidableEq, Repr

/-- Full derived chain state at a tip. -/
structure ChainState where
  utxo : OutPoint → Option UtxoEntry
  keySets : KeySetType → List Nat
  aspKeyIdMap : Nat → Option Nat
  lastKeyID : Nat
  threadTips : Nat → OutPoint
  totalSupply : Int

/-- Primitive state mutations a block's transactions perform: spending and
creating outputs, moving a thread tip, ASP map and admin key-set changes,
and supply changes from Issue-thread mint or burn. -/
inductive MicroOp where
  | spendOut (op : OutPoint)
  | addOut (op : OutPoint) (e : UtxoEntry)
  | setTip (thread : Nat) (op : OutPoint)
  | aspAdd (kid pk : Nat)
  | aspRevoke (kid pk : Nat)
  | keyAdd (kst : KeySetType) (pk : Nat)
  | keyRevoke (kst : KeySetType) (pk : Nat)
  | mint (amount : Int)
  deriving DecidableEq, Repr

/-- Journal entries: each records the previous value of the one field
component its mutation overwrote. -/
inductive JEntry where
  | jUtxo (op : OutPoint) (old : Option UtxoEntry)
  | jTip (thread : Nat) (old : OutPoint)
  | jAsp (kid : Nat) (old : Option Nat)
  | jLastKid (old : Nat)
  | jKeySet (kst : KeySetType) (old : List Nat)
  | jSupply (old : Int)

/-- Point update of the UTXO map. -/
def setUtxo (m : OutPoint → Option UtxoEntry) (op : OutPoint)
    (v : Option UtxoEntry) : OutPoint → Option UtxoEntry :=
  fun o => if o = op then v else m o

/-- Point update of a thread tip. -/
def setTipMap (m : Nat → OutPoint) (t : Nat) (v : OutPoint) : Nat → OutPoint :=
  fun u => if u = t then v else m u

/-- Point update of a key set. -/
def setKeySet (m : KeySetType → List Nat) (kst : KeySetType) (v : List Nat) :
    KeySetType → List Nat :=
  fun s => if s = kst then v else m s

/-- Modelled from the spec: apply one primitive mutation, producing the
journal entries that allow exact rollback.  A spend of an outpoint the
view does not contain is ErrMissingTx (spec section 4.5); admin mutations
follow the rules of spec section 4.4 with ErrInvalidAdminOp. -/
def stepOp (s : ChainState) : MicroOp → Except Err (ChainState × List JEntry)
  | .spendOut op =>
    match s.utxo op with
    | none => .error .errMissingTx
    | some e =>
      .ok ({ s with utxo := setUtxo s.utxo op none }, [.jUtxo op (some e)])
  | .addOut op e =>
    .ok ({ s with utxo := setUtxo s.utxo op (some e) }, [.jUtxo op (s.utxo op)])
  | .setTip t op =>
    .ok ({ s with threadTips := setTipMap s.threadTips t op },
      [.jTip t (s.threadTips t)])
  | .aspAdd kid pk =>
    match s.aspKeyIdMap kid with
    | some _ => .error .errInvalidAdminOp
    | none =>
      if s.lastKeyID + 1 < kid then .error .errInvalidAdminOp
      else .ok ({ s with
          aspKeyIdMap := setKid s.aspKeyIdMap kid (some pk),
          lastKeyID := max s.lastKeyID kid },
        [.jAsp kid (s.aspKeyIdMap kid), .jLastKid s.lastKeyID])
  | .aspRevoke kid pk =>
    match s.aspKeyIdMap kid with
    | none => .error .errInvalidAdminOp
    | some pk1 =>
      if pk1 ≠ pk then .error .errInvalidAdminOp
      else .ok ({ s with aspKeyIdMap := setKid s.aspKeyIdMap kid none },
        [.jAsp kid (s.aspKeyIdMap kid)])
  | .keyAdd kst pk =>
    if (s.keySets kst).contains pk then .error .errInvalidAdminOp
    else if MaxAdminKeySetSize ≤ (s.keySets kst).length then
      .error .errInvalidAdminOp
    else .ok ({ s with
        keySets := setKeySet s.keySets kst (pk :: s.keySets kst) },
      [.jKeySet kst (s.keySets kst)])
  | .keyRevoke kst pk =>
    if (s.keySets kst).contains pk then
      .ok ({ s with
          keySets := setKeySet s.keySets kst ((s.keySets kst).erase pk) },
        [.jKeySet kst (s.keySets kst)])
    else .error .errInvalidAdminOp
  | .mint a =>
    .ok ({ s with totalSupply := s.totalSupply + a }, [.jSupply s.totalSupply])

/-- Restore the field component a journal entry recorded. -/
def undoEntry (s : ChainState) : JEntry → ChainState
  | .jUtxo op old => { s with utxo := setUtxo s.utxo op old }
  | .jTip t old => { s with threadTips := setTipMap s.threadTips t old }
  | .jAsp kid old => { s with aspKeyIdMap := setKid s.aspKeyIdMap kid old }
  | .jLastKid old => { s with lastKeyID := old }
  | .jKeySet kst old => { s with keySets := setKeySet s.keySets kst old }
  | .jSupply old => { s with totalSupply := old }

/-- Undo a journal (entries listed in application order): restore in
reverse order. -/
def undoJournal (s : ChainState) (j : List JEntry) : ChainState :=
  j.reverse.foldl undoEntry s

/-- Run a sequence of primitive mutations, accumulating the journal. -/
def runOps (s : ChainState) : List MicroOp → Except Err (ChainState × List JEntry)
  | [] => .ok (s, [])
  | m :: ms =>
    match stepOp s m with
    | .error e => .error e
    | .ok (s1, j1) =>
      match runOps s1 ms with
      | .error e => .error e
      | .ok (s2, j2) => .ok (s2, j1 ++ j2)

/-- A block: identity hashes are opaque naturals; the consensus effect of
its transactions is the list of primitive mutations they perform, in
transaction order (spec section 5 ordering guarantees). -/
structure Blk where
  hash : Nat
  prevHash : Nat
  height : Nat
  ops : List MicroOp
  deriving DecidableEq, Repr

/-- apply(block): run the block's mutations against the state, returning
the new state and the undo journal. -/
def applyBlock (s : ChainState) (b : Blk) :
    Except Err (ChainState × List JEntry) :=
  runOps s b.ops

/-- undo(block): rewind a previously applied block using its journal. -/
def undoBlock (s : ChainState) (j : List JEntry) : ChainState :=
  undoJournal s j

theorem setUtxo_restore (m : OutPoint → Option UtxoEntry) (op : OutPoint)
    (v : Option UtxoEntry) : setUtxo (setUtxo m op v) op (m op) = m := by
  funext o
  unfold setUtxo
  by_cases h : o = op <;> simp [h]

theorem setKid_restore (m : Nat → Option Nat) (kid : Nat) (v : Option Nat) :
    setKid (setKid m kid v) kid (m kid) = m := by
  funext k
  unfold setKid
  by_cases h : k = kid <;> simp [h]

theorem setTipMap_restore (m : Nat → OutPoint) (t : Nat) (v : OutPoint) :
    setTipMap (setTipMap m t v) t (m t) = m := by
  funext u
  unfold setTipMap
  by_cases h : u = t <;> simp [h]

theorem setKeySet_restore (m : KeySetType → List Nat) (kst : KeySetType)
    (v : List Nat) : setKeySet (setKeySet m kst v) kst (m kst) = m := by
  funext s
  unfold setKeySet
  by_cases h : s = kst <;> simp [h]

theorem undoJournal_one (s : ChainState) (e : JEntry) :
    undoJournal s [e] = undoEntry s e := rfl

theorem undoJournal_two (s : ChainState) (e1 e2 : JEntry) :
    undoJournal s [e1, e2] = undoEntry (undoEntry s e2) e1 := rfl

theorem stepOp_undo (s : ChainState) (m : MicroOp) (s1 : ChainState)
    (j : List JEntry) (h : stepOp s m = .ok (s1, j)) : undoJournal s1 j = s := by
  cases m with
  | spendOut op =>
    cases hmap : s.utxo op with
    | none => simp [stepOp, hmap] at h
    | some e =>
      simp only [stepOp, hmap, Except.ok.injEq, Prod.mk.injEq] at h
      obtain ⟨hs1, hj⟩ := h
      subst hs1; subst hj
      rw [undoJournal_one]
      simp only [undoEntry]
      rw [show (some e) = s.utxo op from hmap.symm, setUtxo_restore]
  | addOut op e =>
    simp only [stepOp, Except.ok.injEq, Prod.mk.injEq] at h
    obtain ⟨hs1, hj⟩ := h
    subst hs1; subst hj
    rw [undoJournal_one]
    simp only [undoEntry]
    rw [setUtxo_restore]
  | setTip t op =>
    simp only [stepOp, Except.ok.injEq, Prod.mk.injEq] at h
    obtain ⟨hs1, hj⟩ := h
    subst hs1; subst hj
    rw [undoJournal_one]
    simp only [undoEntry]
    rw [setTipMap_restore]
  | aspAdd kid pk =>
    cases hmap : s.aspKeyIdMap kid with
    | some pk1 => simp [stepOp, hmap] at h
    | none =>
      by_cases hskip : s.lastKeyID + 1 < kid
      · simp [stepOp, hmap, hskip] at h
      · simp only [stepOp, hmap, hskip, if_false, ite_false,
          Except.ok.injEq, Prod.mk.injEq] at h
        obtain ⟨hs1, hj⟩ := h
        subst hs1; subst hj
        rw [undoJournal_two]
        simp only [undoEntry]
        rw [show (none : Option Nat) = s.aspKeyIdMap kid from hmap.symm,
          setKid_restore]
  | aspRevoke kid pk =>
    cases hmap : s.aspKeyIdMap kid with
    | none => simp [stepOp, hmap] at h
    | some pk1 =>
      by_cases hpk : pk1 = pk
      · simp only [stepOp, hmap, hpk, ne_eq, not_true_eq_false, if_false,
          ite_false, Except.ok.injEq, Prod.mk.injEq] at h
        obtain ⟨hs1, hj⟩ := h
        subst hs1; subst hj
        rw [undoJournal_one]
        simp only [undoEntry]
        rw [show (some pk) = s.aspKeyIdMap kid from hpk ▸ hmap.symm,
          setKid_restore]
      · simp [stepOp, hmap, hpk] at h
  | keyAdd kst pk =>
    by_cases hin : pk ∈ s.keySets kst
    · simp [stepOp, hin] at h
    · by_cases hfull : MaxAdminKeySetSize ≤ (s.keySets kst).length
      · simp [stepOp, hin, hfull] at h
      · simp [stepOp, hin, hfull] at h
        obtain ⟨hs1, hj⟩ := h
        subst hs1; subst hj
        rw [undoJournal_one]
        simp only [undoEntry]
        rw [setKeySet_restore]
  | keyRevoke kst pk =>
    by_cases hin : pk ∈ s.keySets kst
    · simp [stepOp, hin] at h
      obtain ⟨hs1, hj⟩ := h
      subst hs1; subst hj
      rw [undoJournal_one]
      simp only [undoEntry]
      rw [setKeySet_restore]
    · simp [stepOp, hin] at h
  | mint a =>
    simp only [stepOp, Except.ok.injEq, Prod.mk.injEq] at h
    obtain ⟨hs1, hj⟩ := h
    subst hs1; subst hj
    rw [undoJournal_one]
    simp only [undoEntry]

theorem undoJournal_append (s : ChainState) (j1 j2 : List JEntry) :
    undoJournal s (j1 ++ j2) = undoJournal (undoJournal s j2) j1 := by
  simp [undoJournal, List.foldl_append]

theorem runOps_undo (ms : List MicroOp) : ∀ (s s2 : ChainState)
    (j : List JEntry), runOps s ms = .ok (s2, j) → undoJournal s2 j = s := by
  induction ms with
  | nil =>
    intro s s2 j h
    simp only [runOps, Except.ok.injEq, Prod.mk.injEq] at h
    obtain ⟨hs, hj⟩ := h
    subst hs; subst hj
    rfl
  | cons m ms ih =>
    intro s s2 j h
    cases hstep : stepOp s m with
    | error e => simp [runOps, hstep] at h
    | ok p =>
      obtain ⟨s1, j1⟩ := p
      cases hrun : runOps s1 ms with
      | error e => simp [runOps, hstep, hrun] at h
      | ok q =>
        obtain ⟨s2', j2⟩ := q
        simp only [runOps, hstep, hrun, Except.ok.injEq, Prod.mk.injEq] at h
        obtain ⟨hs, hj⟩ := h
        subst hs; subst hj
        rw [undoJournal_append, ih s1 s2' j2 hrun]
        exact stepOp_undo s m s1 j1 hstep

/-- C1: undo is a total inverse of apply: for every chain state and every
block whose application succeeds, undoing the block with its journal
restores the UTXO view, the admin key sets, the ASP key-id map with
lastKeyID, the thread tips and the token supply exactly to their prior
values (the whole state, field for field). -/
theorem c1_undo_is_inverse_of_apply (s : ChainState) (b : Blk) :
    match applyBlock s b with
    | .ok p => undoBlock p.1 p.2 = s
    | .error _ => True := by
  cases h : applyBlock s b with
  | error e => trivial
  | ok p =>
    obtain ⟨s1, j⟩ := p
    exact runOps_undo b.ops s s1 j h

/-! ## Admin transaction details and sanity checking (C5, C6) -/

/-- Modelled from the spec: the admin opcode byte constants live in a
txscript source file that is not in scope; only their distinctness is used
here. -/
def AdminOpIssueKeyAdd : Nat := 1
def AdminOpIssueKeyRevoke : Nat := 2
def AdminOpProvisionKeyAdd : Nat := 3
def AdminOpProvisionKeyRevoke : Nat := 4
def AdminOpValidateKeyAdd : Nat := 5
def AdminOpValidateKeyRevoke : Nat := 6
def AdminOpASPKeyAdd : Nat := 7
def AdminOpASPKeyRevoke : Nat := 8

/-- Modelled from the spec: txscript.ExtractAdminData (source not in
scope): the pushed data's first byte is the operation, followed by a
33-byte compressed secp256k1 public key (leading byte 2 or 3), optionally
followed by a 32-bit key id. -/
def extractAdminData (pops : List ParsedOpcode) : Option (Nat × List Nat) :=
  match pops with
  | [_, p1] =>
    match p1.data with
    | [] => none
    | op :: rest =>
      if 33 ≤ rest.length ∧ (rest.headD 0 = 2 ∨ rest.headD 0 = 3) then
        some (op, rest)
      else none
  | _ => none

/-- Translation of txscript.IsValidAdminOp (standard.go lines 268-311):
two ops OP_RETURN plus a 34- or 38-byte data push holding a well-formed
admin payload, restricted by the thread-to-operation table. -/
def IsValidAdminOpB (pops : List ParsedOpcode) (threadID : Nat) : Bool :=
  match pops with
  | [p0, p1] =>
    if p0.value != OP_RETURN then false
    else if p1.value != OP_DATA_34 && p1.value != OP_DATA_38 then false
    else
      match extractAdminData pops with
      | none => false
      | some (op, _) =>
        if threadID = 0 then
          op == AdminOpProvisionKeyAdd || op == AdminOpProvisionKeyRevoke ||
            op == AdminOpIssueKeyAdd || op == AdminOpIssueKeyRevoke
        else if threadID = 1 then
          op == AdminOpValidateKeyAdd || op == AdminOpValidateKeyRevoke ||
            ((op == AdminOpASPKeyAdd || op == AdminOpASPKeyRevoke) &&
              p1.data.length == 38)
        else false
  | _ => false

/-- Translation of txscript.GetAdminDetailsMsgTx (standard.go lines
217-243): an admin transaction's thread id from output 0 when that output
is a ProvaAdmin script, together with the remaining output scripts. -/
def getAdminDetails (tx : MsgTx) : Option (Nat × List (List ParsedOpcode)) :=
  match tx.txOut with
  | [] => none
  | out0 :: rest =>
    if typeOfScript out0.pkScript == ScriptClass.provaAdminTy then
      match out0.pkScript with
      | p0 :: _ => some (asSmallInt p0.value, rest.map (·.pkScript))
      | [] => none
    else none

/-- Thread id of an admin transaction, if it is one. -/
def adminThreadOf (tx : MsgTx) : Option Nat := (getAdminDetails tx).map (·.1)

/-- Maximum transaction amount in Atoms (provautil.MaxAtoms =
21e8 grams times 1e6 Atoms per gram). -/
def MaxAtoms : Int := 2100000000000000

/-- Modelled from the spec: the Issue-thread shape rules of
CheckTransactionSanity (validate.go not in scope; spec section 4.3): one
input makes an issuance whose non-thread outputs must be Prova scripts of
positive value; two inputs make a destruction with exactly one OP_RETURN
output of positive value; anything else is ErrInvalidAdminTx. -/
def checkIssueShape (tx : MsgTx) : Except Err Unit :=
  if tx.txIn.length == 1 then
    if (tx.txOut.headD ⟨0, []⟩).value != 0 then .error .errInvalidAdminTx
    else if tx.txOut.length < 2 then .error .errInvalidAdminTx
    else if (tx.txOut.drop 1).any
        (fun o => !isGeneralProva o.pkScript || o.value ≤ 0) then
      .error .errInvalidAdminTx
    else .ok ()
  else if tx.txIn.length == 2 then
    match tx.txOut with
    | [t, burn] =>
      if t.value == 0 && isNullData burn.pkScript && 0 < burn.value then .ok ()
      else .error .errInvalidAdminTx
    | _ => .error .errInvalidAdminTx
  else .error .errInvalidAdminTx

/-- Modelled from the spec: the admin-transaction part of
CheckTransactionSanity (spec section 4.3, mirrored by the surviving
duplicate in src/mempool/policy.go checkTransactionStandard): a ProvaAdmin
output anywhere but index 0 rejects; a Root- or Provision-thread admin
transaction must have exactly one input, at least two outputs, only
zero-value outputs and well-formed admin operations; Issue-thread
transactions follow checkIssueShape. -/
def checkAdminSanity (tx : MsgTx) : Except Err Unit :=
  if (tx.txOut.drop 1).any
      (fun o => typeOfScript o.pkScript == ScriptClass.provaAdminTy) then
    .error .errInvalidAdminTx
  else
    match getAdminDetails tx with
    | none => .ok ()
    | some (tid, adminOuts) =>
      if tid = 2 then checkIssueShape tx
      else
        if tx.txIn.length != 1 then .error .errInvalidAdminTx
        else if tx.txOut.length < 2 then .error .errInvalidAdminTx
        else if tx.txOut.any (fun o => o.value != 0) then
          .error .errInvalidAdminTx
        else if adminOuts.any (fun pops => !IsValidAdminOpB pops tid) then
          .error .errInvalidAdminTx
        else .ok ()

/-- Modelled from the spec: blockchain.CheckTransactionSanity (validate.go
not in scope; spec section 4.3): the context-free checks in the btcd
lineage's order — nonempty inputs and outputs, output values inside
[0, MaxAtoms] with an in-range sum, no duplicate inputs — followed by the
admin-transaction shape rules. -/
def checkTransactionSanity (tx : MsgTx) : Except Err Unit :=
  if tx.txIn.isEmpty then .error .errNoTxInputs
  else if tx.txOut.isEmpty then .error .errNoTxOutputs
  else if tx.txOut.any (fun o => o.value < 0 || MaxAtoms < o.value) then
    .error .errBadTxOutValue
  else if MaxAtoms < (tx.txOut.map (·.value)).sum then .error .errBadTxOutValue
  else if !(tx.txIn.map (·.prevOut)).Nodup then .error .errDuplicateTxInputs
  else checkAdminSanity tx

/-! ## Input validation: sums and fees (C6) -/

/-- Total value of the outputs a transaction's inputs spend, when every
referenced outpoint is present in the view. -/
def totalInputValue (view : OutPoint → Option UtxoEntry) :
    List TxIn → Option Int
  | [] => some 0
  | i :: is =>
    match view i.prevOut with
    | none => none
    | some e => (totalInputValue view is).map (fun r => e.value + r)

/-- Total value of all outputs of a transaction (the OP_RETURN destruction
output of an Issue-thread transaction included, as the input tests
require). -/
def totalOutputValue (tx : MsgTx) : Int := (tx.txOut.map (·.value)).sum

/-- Whether the transaction is an Issue-thread admin transaction. -/
def isIssueThreadTx (tx : MsgTx) : Bool :=
  match adminThreadOf tx with
  | some 2 => true
  | _ => false

/-- Modelled from the spec: the maximum transaction fee.  The constant's
source file is not in scope; TestCheckTransactionInputs bounds it to
[5000000, 100000001) Atoms and the round 1e8 is used. -/
def MaxFee : Int := 100000000

/-- Modelled from the spec: the amount part of
blockchain.CheckTransactionInputs (validate.go not in scope; spec section
4.7, behavior fixed by TestCheckTransactionInputs): every input must
resolve in the view (else ErrMissingTx); an Issue-thread transaction with
a single input is an issuance and may mint; otherwise the input sum must
cover the sum of all outputs (else ErrSpendTooHigh) and the difference,
the fee, must not exceed MaxFee (else ErrFeeTooHigh). -/
def checkTransactionInputs (tx : MsgTx) (view : OutPoint → Option UtxoEntry) :
    Except Err Int :=
  match totalInputValue view tx.txIn with
  | none => .error .errMissingTx
  | some totalIn =>
    if isIssueThreadTx tx && tx.txIn.length == 1 then .ok 0
    else if totalIn < totalOutputValue tx then .error .errSpendTooHigh
    else if MaxFee < totalIn - totalOutputValue tx then .error .errFeeTooHigh
    else .ok (totalIn - totalOutputValue tx)

/-- The claim's reading of the output sum, following the specification's
words: only outputs that are not OP_RETURN (null-data) scripts count. -/
def specNonOpReturnOutputSum (tx : MsgTx) : Int :=
  ((tx.txOut.filter (fun o => !isNullData o.pkScript)).map (·.value)).sum

theorem sanity_reduces_to_admin (tx : MsgTx)
    (hin : tx.txIn ≠ []) (hout : tx.txOut ≠ [])
    (hnodup : (tx.txIn.map (·.prevOut)).Nodup)
    (hrange : ∀ o ∈ tx.txOut, 0 ≤ o.value ∧ o.value ≤ MaxAtoms)
    (hsum : (tx.txOut.map (·.value)).sum ≤ MaxAtoms) :
    checkTransactionSanity tx = checkAdminSanity tx := by
  unfold checkTransactionSanity
  rw [if_neg (by simp [List.isEmpty_iff, hin]),
    if_neg (by simp [List.isEmpty_iff, hout]),
    if_neg ?_, if_neg (by simp; omega), if_neg (by simp [hnodup])]
  simp only [List.any_eq_true, not_exists, not_and, Bool.or_eq_true,
    decide_eq_true_eq, not_or]
  intro o ho
  have := hrange o ho
  constructor <;> intro h <;> omega

/-- C5: CheckTransactionSanity rejects with ErrInvalidAdminTx every admin
transaction on the Root or Provision thread that has more than one input,
fewer than two outputs, or any output of non-zero value, and rejects every
transaction carrying a ProvaAdmin output at an index other than 0.  The
transaction is assumed to pass the preceding generic sanity gates
(nonempty distinct inputs, output values in range). -/
theorem c5_admin_shape_rejected (tx : MsgTx)
    (hin : tx.txIn ≠ [])
    (hnodup : (tx.txIn.map (·.prevOut)).Nodup)
    (hrange : ∀ o ∈ tx.txOut, 0 ≤ o.value ∧ o.value ≤ MaxAtoms)
    (hsum : (tx.txOut.map (·.value)).sum ≤ MaxAtoms) :
    ((adminThreadOf tx = some 0 ∨ adminThreadOf tx = some 1) →
      (1 < tx.txIn.length ∨ tx.txOut.length < 2 ∨ ∃ o ∈ tx.txOut, o.value ≠ 0) →
      checkTransactionSanity tx = .error .errInvalidAdminTx) ∧
    ((∃ o ∈ tx.txOut.drop 1, typeOfScript o.pkScript = .provaAdminTy) →
      checkTransactionSanity tx = .error .errInvalidAdminTx) := by
  constructor
  · intro hthread hbad
    have hout : tx.txOut ≠ [] := by
      intro hnil
      rcases hthread with h | h <;>
        simp [adminThreadOf, getAdminDetails, hnil] at h
    rw [sanity_reduces_to_admin tx hin hout hnodup hrange hsum]
    unfold checkAdminSanity
    by_cases hpos : (tx.txOut.drop 1).any
        (fun o => typeOfScript o.pkScript == ScriptClass.provaAdminTy)
    · rw [if_pos hpos]
    · rw [if_neg hpos]
      obtain ⟨tid, outs, hdet, htid⟩ :
          ∃ tid outs, getAdminDetails tx = some (tid, outs) ∧
            (tid = 0 ∨ tid = 1) := by
        rcases hthread with h | h <;>
          rcases hdet : getAdminDetails tx with _ | ⟨t, os⟩ <;>
            simp [adminThreadOf, hdet] at h <;>
          exact ⟨t, os, rfl, by omega⟩
      rw [hdet]
      have h2 : ¬ tid = 2 := by omega
      simp only [h2, if_false, ite_false]
      by_cases hlen1 : tx.txIn.length = 1
      · rw [if_neg (by simp [hlen1])]
        by_cases hlt : tx.txOut.length < 2
        · rw [if_pos hlt]
        · rw [if_neg hlt]
          have hval : ∃ o ∈ tx.txOut, o.value ≠ 0 := by
            rcases hbad with h | h | h
            · omega
            · omega
            · exact h
          rw [if_pos ?_]
          obtain ⟨o, ho, hv⟩ := hval
          simp only [List.any_eq_true, bne_iff_ne, ne_eq]
          exact ⟨o, ho, hv⟩
      · rw [if_pos (by simp [hlen1])]
  · intro hpos
    have hout : tx.txOut ≠ [] := by
      obtain ⟨o, ho, _⟩ := hpos
      intro hnil
      rw [hnil] at ho
      simp at ho
    rw [sanity_reduces_to_admin tx hin hout hnodup hrange hsum]
    unfold checkAdminSanity
    rw [if_pos ?_]
    obtain ⟨o, ho, hcls⟩ := hpos
    simp only [List.any_eq_true, beq_iff_eq]
    exact ⟨o, ho, hcls⟩

/-- Witness building blocks mirroring TestCheckTransactionSanity: the
Root-thread output, the Provision key-add admin op output, and a
reference transaction shape. -/
def rootThreadTxOut : TxOut := ⟨0, [⟨0, []⟩, ⟨187, []⟩]⟩

def adminOpTxOut : TxOut :=
  ⟨0, [⟨106, []⟩, ⟨34, AdminOpProvisionKeyAdd :: 2 :: List.replicate 32 9⟩]⟩

def txTwoInputsAdmin : MsgTx :=
  ⟨1, [⟨⟨1, 1⟩, 4294967295⟩, ⟨⟨1, 2⟩, 4294967295⟩],
    [rootThreadTxOut, adminOpTxOut], 0⟩

def txThreadAtPosOne : MsgTx :=
  ⟨1, [⟨⟨1, 1⟩, 4294967295⟩], [adminOpTxOut, rootThreadTxOut], 0⟩

/-- Witness for c5_admin_shape_rejected: a Root-thread admin transaction
with two inputs, and a transaction with the thread output at position 1,
are both rejected with ErrInvalidAdminTx. -/
theorem c5_admin_shape_rejected_witness :
    checkTransactionSanity txTwoInputsAdmin = .error .errInvalidAdminTx ∧
      checkTransactionSanity txThreadAtPosOne = .error .errInvalidAdminTx :=
  ⟨(c5_admin_shape_rejected txTwoInputsAdmin (by decide) (by decide)
      (by decide) (by decide)).1 (by decide) (by decide),
    (c5_admin_shape_rejected txThreadAtPosOne (by decide) (by decide)
      (by decide) (by decide)).2 (by decide)⟩

/-- The destroy-more-than-input transaction of TestCheckTransactionInputs:
two inputs worth 0 and 400000000 Atoms, an Issue-thread output and an
OP_RETURN destruction output of 500000000 Atoms. -/
def txDestroyMore : MsgTx :=
  ⟨1, [⟨⟨10, 0⟩, 4294967295⟩, ⟨⟨11, 0⟩, 4294967295⟩],
    [⟨0, [⟨82, []⟩, ⟨187, []⟩]⟩, ⟨500000000, [⟨106, []⟩]⟩], 0⟩

/-- The UTXO view of TestCheckTransactionInputs: the Issue-thread tip
(value 0) and a 400000000-Atom Prova output. -/
def viewInputsTest : OutPoint → Option UtxoEntry := fun o =>
  if o = ⟨10, 0⟩ then some ⟨0, [⟨82, []⟩, ⟨187, []⟩], 100, false⟩
  else if o = ⟨11, 0⟩ then
    some ⟨400000000,
      [⟨82, []⟩, ⟨20, List.replicate 20 7⟩, ⟨81, []⟩, ⟨82, []⟩, ⟨83, []⟩,
        ⟨186, []⟩], 100, false⟩
  else none

/-- C6 counterexample: the destroy-more-than-input transaction fails with
ErrSpendTooHigh although its non-OP_RETURN output sum (0) does not exceed
its input sum (400000000): the claim's non-OP_RETURN reading of the output
sum would not trigger ErrSpendTooHigh here, but the checker counts the
OP_RETURN destruction output. -/
theorem c6_counterexample_opreturn_counted :
    checkTransactionInputs txDestroyMore viewInputsTest =
        .error .errSpendTooHigh ∧
      specNonOpReturnOutputSum txDestroyMore = 0 ∧
      totalInputValue viewInputsTest txDestroyMore.txIn = some 400000000 := by
  refine ⟨by decide, by decide, by decide⟩

/-- C6 (amended): for a transaction that is not an Issue-thread issuance
and whose inputs all resolve in the view, the input sum must cover the sum
of all outputs, OP_RETURN outputs included: outputs exceeding inputs is
ErrSpendTooHigh, a difference above MaxFee is ErrFeeTooHigh, and otherwise
the check succeeds returning the fee. -/
theorem c6_input_sum_and_fee (tx : MsgTx)
    (view : OutPoint → Option UtxoEntry) (totalIn : Int)
    (hres : totalInputValue view tx.txIn = some totalIn)
    (hni : (isIssueThreadTx tx && tx.txIn.length == 1) = false) :
    (totalIn < totalOutputValue tx →
      checkTransactionInputs tx view = .error .errSpendTooHigh) ∧
    (totalOutputValue tx ≤ totalIn →
      MaxFee < totalIn - totalOutputValue tx →
      checkTransactionInputs tx view = .error .errFeeTooHigh) ∧
    (totalOutputValue tx ≤ totalIn →
      totalIn - totalOutputValue tx ≤ MaxFee →
      checkTransactionInputs tx view = .ok (totalIn - totalOutputValue tx)) := by
  unfold checkTransactionInputs
  rw [hres, hni]
  simp only [Bool.false_eq_true, if_false, ite_false]
  refine ⟨fun h => ?_, fun h1 h2 => ?_, fun h1 h2 => ?_⟩
  · rw [if_pos h]
  · rw [if_neg (by omega), if_pos h2]
  · rw [if_neg (by omega), if_neg (by omega)]

/-- The exact-destruction transaction of TestCheckTransactionInputs:
destroys precisely the 400000000 input Atoms. -/
def txDestroyExact : MsgTx :=
  ⟨1, [⟨⟨10, 0⟩, 4294967295⟩, ⟨⟨11, 0⟩, 4294967295⟩],
    [⟨0, [⟨82, []⟩, ⟨187, []⟩]⟩, ⟨400000000, [⟨106, []⟩]⟩], 0⟩

/-- Witness for c6_input_sum_and_fee: the exact destruction passes with
fee 0, and destroying more than the input is ErrSpendTooHigh. -/
theorem c6_input_sum_and_fee_witness :
    checkTransactionInputs txDestroyExact viewInputsTest = .ok 0 ∧
      checkTransactionInputs txDestroyMore viewInputsTest =
        .error .errSpendTooHigh :=
  ⟨by
      have h := (c6_input_sum_and_fee txDestroyExact viewInputsTest 400000000
        (by decide) (by decide)).2.2 (by decide) (by decide)
      simpa using h,
    (c6_input_sum_and_fee txDestroyMore viewInputsTest 400000000
      (by decide) (by decide)).1 (by decide)⟩

/-! ## Soundness of the Prova script classifier (C8) -/

/-- A 20-byte push (a pkHash in a Prova script). -/
def is20 (p : ParsedOpcode) : Bool := p.data.length == 20

/-- A key-id push: a non-pkHash push of an unsigned 32-bit value (this is
the classification the isGeneralProva loop applies). -/
def isKidPop (p : ParsedOpcode) : Bool := !is20 p && isUint32V p.value

/-- The decoded key-id values of a push sequence. -/
def kidVals (ps : List ParsedOpcode) : List Nat :=
  ps.filterMap (fun p => if isKidPop p then asInt32 p else none)

theorem scanProva_append (xs : List ParsedOpcode) : ∀ (ys : List ParsedOpcode)
    (nI nH : Nat) (seen : List Nat),
    scanProva (xs ++ ys) nI nH seen =
      match scanProva xs nI nH seen with
      | none => none
      | some (a, b, s) => scanProva ys a b s := by
  induction xs with
  | nil => intro ys nI nH seen; rfl
  | cons p ps ih =>
    intro ys nI nH seen
    simp only [List.cons_append, scanProva]
    by_cases h20 : p.data.length == 20
    · by_cases hI : nI > 0
      · simp [h20, hI]
      · simp [h20, hI, ih]
    · by_cases hu : isUint32V p.value
      · cases hv : asInt32 p with
        | none => simp [h20, hu, hv]
        | some v =>
          by_cases hseen : v ∈ seen
          · simp [h20, hu, hv, hseen]
          · simp [h20, hu, hv, hseen, ih]
      · simp [h20, hu, ih]

theorem scanProva_char (ps : List ParsedOpcode) : ∀ (nI nH : Nat)
    (seen : List Nat) (nI2 nH2 : Nat) (seen2 : List Nat),
    scanProva ps nI nH seen = some (nI2, nH2, seen2) →
    nI2 = nI + (ps.filter isKidPop).length ∧
    nH2 = nH + (ps.filter is20).length ∧
    (0 < nI → ps.filter is20 = []) ∧
    (∀ p ∈ ps, isKidPop p = true → (asInt32 p).isSome = true) ∧
    (kidVals ps).Nodup ∧
    (∀ v ∈ kidVals ps, v ∉ seen) := by
  induction ps with
  | nil =>
    intro nI nH seen nI2 nH2 seen2 h
    simp only [scanProva, Option.some.injEq, Prod.mk.injEq] at h
    obtain ⟨h1, h2, _⟩ := h
    subst h1; subst h2
    simp [kidVals]
  | cons p ps ih =>
    intro nI nH seen nI2 nH2 seen2 h
    by_cases h20 : p.data.length == 20
    · by_cases hI : nI > 0
      · simp [scanProva, h20, hI] at h
      · simp only [scanProva, h20, if_pos, hI, ite_true, if_neg,
          ite_false] at h
        obtain ⟨c1, c2, c3, c4, c5, c6⟩ := ih nI (nH + 1) seen nI2 nH2 seen2 h
        have hkid : isKidPop p = false := by
          simp [isKidPop, is20, h20]
        have h20p : is20 p = true := by simpa [is20] using h20
        refine ⟨by simp [List.filter_cons, hkid, c1],
          by simp [List.filter_cons, h20p]; omega,
          fun hpos => absurd hpos (by omega), ?_, ?_, ?_⟩
        · intro q hq hkq
          rcases List.mem_cons.mp hq with rfl | hq2
          · rw [hkid] at hkq; exact absurd hkq (by simp)
          · exact c4 q hq2 hkq
        · simpa [kidVals, List.filterMap_cons, hkid] using c5
        · intro v hv
          simp only [kidVals, List.filterMap_cons, hkid, if_neg,
            Bool.false_eq_true, ite_false] at hv
          exact c6 v hv
    · by_cases hu : isUint32V p.value
      · cases hv : asInt32 p with
        | none => simp [scanProva, h20, hu, hv] at h
        | some v =>
          by_cases hseen : v ∈ seen
          · simp [scanProva, h20, hu, hv, hseen] at h
          · simp [scanProva, h20, hu, hv, hseen] at h
            obtain ⟨c1, c2, c3, c4, c5, c6⟩ :=
              ih (nI + 1) nH (v :: seen) nI2 nH2 seen2 h
            have hkid : isKidPop p = true := by
              simp [isKidPop, is20, h20, hu]
            have h20p : is20 p = false := by simpa [is20] using h20
            have hkv : kidVals (p :: ps) = v :: kidVals ps := by
              simp [kidVals, List.filterMap_cons, hkid, hv]
            refine ⟨by simp [List.filter_cons, hkid]; omega,
              by simp [List.filter_cons, h20p, c2],
              fun hpos => ?_, ?_, ?_, ?_⟩
            · have := c3 (by omega)
              simp [List.filter_cons, h20p, this]
            · intro q hq hkq
              rcases List.mem_cons.mp hq with rfl | hq2
              · simp [hv]
              · exact c4 q hq2 hkq
            · rw [hkv]
              refine List.nodup_cons.mpr ⟨?_, c5⟩
              intro hmem
              have := c6 v hmem
              simp at this
            · intro u hu2
              rw [hkv] at hu2
              rcases List.mem_cons.mp hu2 with rfl | hu3
              · exact hseen
              · have := c6 u hu3
                intro hc
                exact this (List.mem_cons_of_mem _ hc)
      · simp only [scanProva, h20, Bool.false_eq_true, if_false, ite_false,
          hu] at h
        obtain ⟨c1, c2, c3, c4, c5, c6⟩ := ih nI nH seen nI2 nH2 seen2 h
        have hkid : isKidPop p = false := by
          simp [isKidPop, is20, h20, hu]
        have h20p : is20 p = false := by simpa [is20] using h20
        refine ⟨by simp [List.filter_cons, hkid, c1],
          by simp [List.filter_cons, h20p, c2],
          fun hpos => by simp [List.filter_cons, h20p, c3 hpos], ?_, ?_, ?_⟩
        · intro q hq hkq
          rcases List.mem_cons.mp hq with rfl | hq2
          · rw [hkid] at hkq; exact absurd hkq (by simp)
          · exact c4 q hq2 hkq
        · simpa [kidVals, List.filterMap_cons, hkid] using c5
        · intro u hu2
          simp only [kidVals, List.filterMap_cons, hkid, Bool.false_eq_true,
            if_false, ite_false] at hu2
          exact c6 u hu2

theorem isGeneralProva_sound (pops : List ParsedOpcode)
    (hGP : isGeneralProva pops = true) :
    ∃ p0 mid pN pLast,
      pops = p0 :: (mid ++ [pN, pLast]) ∧
      pLast.value = OP_CHECKSAFEMULTISIG ∧
      isSmallIntV p0.value = true ∧
      isSmallIntV pN.value = true ∧
      2 ≤ asSmallInt p0.value ∧
      mid.length = asSmallInt pN.value ∧
      (mid.filter is20).length < asSmallInt p0.value ∧
      asSmallInt p0.value ≤ (mid.filter isKidPop).length ∧
      (∀ p ∈ mid, isKidPop p = true → (asInt32 p).isSome = true) ∧
      (kidVals mid).Nodup ∧
      (∀ xs k ys, mid = xs ++ k :: ys → isKidPop k = true →
        ∀ q ∈ ys, is20 q = false) := by
  by_cases hlen : pops.length < 6
  · unfold isGeneralProva at hGP
    rw [if_pos hlen] at hGP
    exact absurd hGP (by simp)
  · cases pops with
    | nil => simp at hlen
    | cons p0 rest =>
      rcases hrev : rest.reverse with _ | ⟨pLast, rest2⟩
      · have hnil : rest = [] := by
          have := congrArg List.reverse hrev
          simpa using this
        subst hnil
        simp at hlen
      · rcases rest2 with _ | ⟨pN, midRev⟩
        · have hone : rest = [pLast] := by
            have := congrArg List.reverse hrev
            simpa using this
          subst hone
          simp at hlen
        · have hrest : rest = midRev.reverse ++ [pN, pLast] := by
            have := congrArg List.reverse hrev
            simpa using this
          subst hrest
          refine ⟨p0, midRev.reverse, pN, pLast, rfl, ?_⟩
          unfold isGeneralProva at hGP
          rw [if_neg hlen] at hGP
          dsimp only at hGP
          rw [show (midRev.reverse ++ [pN, pLast]).reverse =
            pLast :: pN :: midRev from by simp] at hGP
          dsimp only at hGP
          by_cases h1 : isSmallIntV p0.value
          case neg => simp [h1] at hGP
          by_cases h2 : isSmallIntV pN.value
          case neg => simp [h1, h2] at hGP
          by_cases h3 : pLast.value = OP_CHECKSAFEMULTISIG
          case neg => simp [h1, h2, h3] at hGP
          by_cases h4 : asSmallInt p0.value < 2
          case pos => simp [h1, h2, h3, h4] at hGP
          by_cases h5 : midRev.length = asSmallInt pN.value
          case neg => simp [h1, h2, h3, h4, h5] at hGP
          simp [h1, h2, h3, h4, h5] at hGP
          cases hscan : scanProva midRev.reverse 0 0 [] with
          | none => rw [hscan] at hGP; simp at hGP
          | some t =>
            obtain ⟨nI, nH, seen⟩ := t
            rw [hscan] at hGP
            simp only [Bool.and_eq_true] at hGP
            obtain ⟨ha, hb⟩ := hGP
            have h6 : nH < asSmallInt p0.value := by simp at ha; omega
            have h7 : asSmallInt p0.value ≤ nI := by simp at hb; omega
            obtain ⟨c1, c2, _, c4, c5, _⟩ :=
              scanProva_char midRev.reverse 0 0 [] nI nH seen hscan
            have hmidlen : midRev.reverse.length = midRev.length := by simp
            refine ⟨h3, h1, h2, by omega, by omega, by omega, by omega, c4,
              c5, ?_⟩
            intro xs k ys hmid hk q hq
            rw [hmid, scanProva_append] at hscan
            cases hxs : scanProva xs 0 0 [] with
            | none => rw [hxs] at hscan; simp at hscan
            | some u =>
              obtain ⟨a, b, s⟩ := u
              rw [hxs] at hscan
              have hk20 : (k.data.length == 20) = false := by
                have : is20 k = false := by
                  simp only [isKidPop, Bool.and_eq_true, Bool.not_eq_eq_eq_not,
                    Bool.not_true] at hk
                  exact hk.1
                simpa [is20] using this
              have hku : isUint32V k.value = true := by
                simp only [isKidPop, Bool.and_eq_true] at hk
                exact hk.2
              cases hkv : asInt32 k with
              | none => simp [scanProva, hk20, hku, hkv] at hscan
              | some v =>
                by_cases hvs : v ∈ s
                · simp [scanProva, hk20, hku, hkv, hvs] at hscan
                · simp only [scanProva, hk20, Bool.false_eq_true, if_false,
                    ite_false, hku, if_pos, ite_true, hkv] at hscan
                  rw [if_neg (by simpa using hvs)] at hscan
                  obtain ⟨_, _, c3y, _⟩ :=
                    scanProva_char ys (a + 1) b (v :: s) nI nH seen hscan
                  have hnil : ys.filter is20 = [] := c3y (by omega)
                  have := List.filter_eq_nil_iff.mp hnil q hq
                  simpa using this

/-- C8 (amended): the classifier returns Prova or GeneralProva only for
scripts of the form m, middle pushes, n, OP_CHECKSAFEMULTISIG in which
every 20-byte push (pkHash) appears before any key-id push and fewer than
m of them occur, every key-id push decodes to a distinct unsigned 32-bit
value with at least m key-ids present, the count of middle pushes equals
n, and m is at least 2; the canonical Prova form is the exact 2-of-3
layout or satisfies m = n - 1 (so a Prova script may carry more than two
key-ids, and a GeneralProva script more than one pkHash). -/
theorem c8_classifier_soundness (pops : List ParsedOpcode)
    (h : typeOfScript pops = .provaTy ∨ typeOfScript pops = .generalProvaTy) :
    ∃ p0 mid pN pLast,
      pops = p0 :: (mid ++ [pN, pLast]) ∧
      pLast.value = OP_CHECKSAFEMULTISIG ∧
      isSmallIntV p0.value = true ∧
      isSmallIntV pN.value = true ∧
      2 ≤ asSmallInt p0.value ∧
      mid.length = asSmallInt pN.value ∧
      (mid.filter is20).length < asSmallInt p0.value ∧
      asSmallInt p0.value ≤ (mid.filter isKidPop).length ∧
      (∀ p ∈ mid, isKidPop p = true → (asInt32 p).isSome = true) ∧
      (kidVals mid).Nodup ∧
      (∀ xs k ys, mid = xs ++ k :: ys → isKidPop k = true →
        ∀ q ∈ ys, is20 q = false) ∧
      (typeOfScript pops = .provaTy →
        (pops.length = 6 ∧ p0.value = OP_2 ∧ pN.value = OP_3) ∨
        asSmallInt p0.value = asSmallInt pN.value - 1) := by
  have hGP : isGeneralProva pops = true := by
    rcases h with h | h <;>
    · unfold typeOfScript at h
      by_cases hnd : isNullData pops
      · simp [hnd] at h
      · by_cases hp : isProva pops
        · unfold isProva at hp
          by_cases hl : pops.length < 6
          · simp [hl] at hp
          · by_cases hg : isGeneralProva pops
            · exact hg
            · simp [hl, hg] at hp
        · by_cases hg : isGeneralProva pops
          · exact hg
          · by_cases ha : isProvaAdmin pops <;> simp [hnd, hp, hg, ha] at h
  have hl6 : ¬ pops.length < 6 := by
    intro hc
    unfold isGeneralProva at hGP
    rw [if_pos hc] at hGP
    exact absurd hGP (by simp)
  obtain ⟨p0, mid, pN, pLast, hdecomp, hcs, hs0, hsN, hm2, hmlen, hhash,
    hkid, hdec, hnodup, hord⟩ := isGeneralProva_sound pops hGP
  refine ⟨p0, mid, pN, pLast, hdecomp, hcs, hs0, hsN, hm2, hmlen, hhash,
    hkid, hdec, hnodup, hord, ?_⟩
  intro hpt
  have hp : isProva pops = true := by
    unfold typeOfScript at hpt
    by_cases hnd2 : isNullData pops
    · simp [hnd2] at hpt
    · by_cases hp2 : isProva pops
      · exact hp2
      · by_cases hg : isGeneralProva pops <;>
          by_cases ha : isProvaAdmin pops <;>
          simp [hnd2, hp2, hg, ha] at hpt
  unfold isProva at hp
  rw [if_neg hl6, hGP] at hp
  simp only [Bool.not_true, Bool.false_eq_true, if_false, ite_false] at hp
  have hhead : pops.headD ⟨0, []⟩ = p0 := by rw [hdecomp]; rfl
  have hdropN : pops.drop (pops.length - 2) = [pN, pLast] := by
    rw [hdecomp]
    have : (p0 :: (mid ++ [pN, pLast])).length - 2 = mid.length + 1 := by
      simp
    rw [this, List.drop_succ_cons, List.drop_left]
  rw [hhead] at hp
  by_cases hc : (pops.length == 6 && p0.value == OP_2 &&
      ((pops.drop 4).headD ⟨0, []⟩).value == OP_3) = true
  · left
    simp only [Bool.and_eq_true, beq_iff_eq] at hc
    obtain ⟨⟨hc1, hc2⟩, hc3⟩ := hc
    have hmid3 : mid.length = 3 := by
      rw [hdecomp] at hc1
      simp at hc1
      omega
    have hdrop4 : pops.drop 4 = [pN, pLast] := by
      rw [hdecomp, show (4 : Nat) = mid.length + 1 from by omega,
        List.drop_succ_cons, List.drop_left]
    rw [hdrop4] at hc3
    exact ⟨hc1, hc2, hc3⟩
  · rw [if_neg hc] at hp
    right
    rw [hdropN] at hp
    simpa using hp

/-- Witness for c8_classifier_soundness: the canonical 2-of-3 script
OP_2 pkHash kid1 kid2 OP_3 OP_CHECKSAFEMULTISIG classifies as Prova and
decomposes as the theorem states. -/
theorem c8_classifier_soundness_witness :
    ∃ p0 mid pN pLast,
      ([⟨82, []⟩, ⟨20, List.replicate 20 7⟩, ⟨81, []⟩, ⟨82, []⟩, ⟨83, []⟩,
          ⟨186, []⟩] : List ParsedOpcode) = p0 :: (mid ++ [pN, pLast]) ∧
      pLast.value = OP_CHECKSAFEMULTISIG ∧
      2 ≤ asSmallInt p0.value := by
  obtain ⟨p0, mid, pN, pLast, h1, h2, _, _, h5, _⟩ :=
    c8_classifier_soundness
      [⟨82, []⟩, ⟨20, List.replicate 20 7⟩, ⟨81, []⟩, ⟨82, []⟩, ⟨83, []⟩,
        ⟨186, []⟩] (Or.inl (by decide))
  exact ⟨p0, mid, pN, pLast, h1, h2, h5⟩

/-! ## Chain index, fork choice and reorganization (C2)

Modelled from the spec: chain.go is not under src/.  The block chain keeps
an index of all accepted blocks (side chains included), the applied main
chain with per-block journals, and the derived state at the tip (spec
section 4.10).  All blocks carry unit work (the chain's difficulty is the
constant PowLimitBits), so cumulative work comparisons are height
comparisons.  Blocks extending the best tip are validated and applied;
blocks on side chains are indexed without any state validation; a side
block whose height exceeds the best tip triggers the reorganization:
detach to the fork point via the journals, then validate and apply the
side branch for the first time; a validation failure restores the
pre-reorg chain (in this pure model the original chain value is returned,
which is what the journal-based rewind of the mutable implementation
reconstructs). -/

structure BlockChain where
  index : List Blk
  main : List (Blk × List JEntry)
  st : ChainState
  genesisHash : Nat
  baseSt : ChainState

/-- Possible outcomes of ProcessBlock. -/
inductive ProcessResult where
  | mainAccepted
  | sideAccepted
  | orphan
  | rejected (e : Err)
  deriving DecidableEq, Repr

/-- Hash of the best main-chain tip. -/
def bestTipHash (bc : BlockChain) : Nat :=
  match bc.main.getLast? with
  | some p => p.1.hash
  | none => bc.genesisHash

/-- Height of the best main-chain tip (genesis is height 0). -/
def bestHeight (bc : BlockChain) : Nat := bc.main.length

/-- Hashes of the applied main-chain blocks. -/
def mainHashes (bc : BlockChain) : List Nat := bc.main.map (fun p => p.1.hash)

/-- Look a block up in the index by hash. -/
def findBlk (index : List Blk) (h : Nat) : Option Blk :=
  index.find? (fun b => b.hash == h)

/-- Whether the parent of an incoming block is known. -/
def parentKnown (bc : BlockChain) (h : Nat) : Bool :=
  h == bc.genesisHash || (findBlk bc.index h).isSome

/-- Walk parent links from a side-branch hash down to the first hash on
the main chain (or genesis), returning the fork hash and the branch
blocks oldest-first.  The walk is fuelled by the incoming block's height. -/
def walkBranch (index : List Blk) (stopHashes : List Nat) (genesisHash : Nat) :
    Nat → Nat → Option (Nat × List Blk)
  | fuel, h =>
    if h = genesisHash ∨ h ∈ stopHashes then some (h, [])
    else
      match fuel with
      | 0 => none
      | fuel + 1 =>
        match findBlk index h with
        | none => none
        | some b =>
          match walkBranch index stopHashes genesisHash fuel b.prevHash with
          | none => none
          | some (f, bs) => some (f, bs ++ [b])

/-- Split the main chain at the fork hash: the kept prefix up to and
including the fork block, and the part to detach after it. -/
def splitAfterHash : List (Blk × List JEntry) → Nat →
    List (Blk × List JEntry) × List (Blk × List JEntry)
  | [], _ => ([], [])
  | p :: rest, h =>
    if p.1.hash = h then ([p], rest)
    else
      let kd := splitAfterHash rest h
      (p :: kd.1, kd.2)

/-- Kept prefix and detach list of a reorganization to the given fork
hash (the whole main chain detaches when the fork is genesis). -/
def splitMain (bc : BlockChain) (forkHash : Nat) :
    List (Blk × List JEntry) × List (Blk × List JEntry) :=
  if forkHash = bc.genesisHash then ([], bc.main)
  else splitAfterHash bc.main forkHash

/-- Rewind the detached blocks, newest first, through their journals. -/
def undoChain (s : ChainState) (detach : List (Blk × List JEntry)) :
    ChainState :=
  detach.reverse.foldl (fun s1 p => undoBlock s1 p.2) s

/-- Validate and apply a branch of blocks in order, collecting the
journals; the first failing block aborts with its error. -/
def applyChain (s : ChainState) : List Blk →
    Except Err (ChainState × List (Blk × List JEntry))
  | [] => .ok (s, [])
  | b :: bs =>
    match applyBlock s b with
    | .error e => .error e
    | .ok (s1, j) =>
      match applyChain s1 bs with
      | .error e => .error e
      | .ok (s2, ps) => .ok (s2, (b, j) :: ps)

/-- Modelled from the spec: ProcessBlock (spec section 4.10).  A block
extending the best tip is validated and applied; a block with an unknown
parent is an orphan; a block on a side chain whose height does not exceed
the best tip is indexed without validation; a higher side block triggers
the reorganization, which walks to the fork point, rewinds the detached
blocks via their journals and validates the attached branch for the first
time, restoring the previous main chain on failure. -/
def processBlock (bc : BlockChain) (b : Blk) : BlockChain × ProcessResult :=
  if b.prevHash = bestTipHash bc then
    match applyBlock bc.st b with
    | .error e => (bc, .rejected e)
    | .ok (s1, j) =>
      ({ bc with
          index := b :: bc.index
          main := bc.main ++ [(b, j)]
          st := s1 }, .mainAccepted)
  else if !parentKnown bc b.prevHash then (bc, .orphan)
  else if b.height ≤ bestHeight bc then
    ({ bc with index := b :: bc.index }, .sideAccepted)
  else
    match walkBranch bc.index (mainHashes bc) bc.genesisHash b.height
        b.prevHash with
    | none => ({ bc with index := b :: bc.index }, .orphan)
    | some (forkHash, bs) =>
      let kd := splitMain bc forkHash
      match applyChain (undoChain bc.st kd.2) (bs ++ [b]) with
      | .error e => ({ bc with index := b :: bc.index }, .rejected e)
      | .ok (s2, ps) =>
        ({ bc with
            index := b :: bc.index
            main := kd.1 ++ ps
            st := s2 }, .mainAccepted)

/-! Concrete double-spend-across-fork scenario (the b26/b27/b28/b29 shape
of the full-block tests): the main chain spends outpoints X then Y; a side
block re-spends X (already spent by its own main-chain ancestor) and is
accepted without validation; its child forces the reorganization, which
fails with ErrMissingTx and leaves the previous tip and state intact. -/

def opX : OutPoint := ⟨100, 0⟩
def opY : OutPoint := ⟨101, 0⟩
def entX : UtxoEntry := ⟨5000, [], 1, false⟩
def entY : UtxoEntry := ⟨6000, [], 2, false⟩

def s0C2 : ChainState where
  utxo := fun o => if o = opX then some entX
    else if o = opY then some entY else none
  keySets := fun _ => []
  aspKeyIdMap := fun _ => none
  lastKeyID := 0
  threadTips := fun _ => ⟨0, 0⟩
  totalSupply := 0

def blkMain1 : Blk := ⟨1, 0, 1, [.spendOut opX]⟩
def blkMain2 : Blk := ⟨2, 1, 2, [.spendOut opY]⟩
def blkSide : Blk := ⟨3, 1, 2, [.spendOut opX]⟩
def blkChild : Blk := ⟨4, 3, 3, []⟩

def chainMain : BlockChain where
  index := [blkMain2, blkMain1]
  main := [(blkMain1, [.jUtxo opX (some entX)]),
    (blkMain2, [.jUtxo opY (some entY)])]
  st := { s0C2 with utxo := setUtxo (setUtxo s0C2.utxo opX none) opY none }
  genesisHash := 0
  baseSt := s0C2

def chainSide : BlockChain := { chainMain with index := blkSide :: chainMain.index }

/-- C2: a block accepted onto a side chain is not validated against the
UTXO or key state at acceptance time (first conjunct: any side block, even
one invalid against the current state, is indexed with tip and state
untouched); a reorganization triggered when the side branch outgrows the
main chain validates the branch for the first time, and a failure — such
as a side block spending an outpoint with no current UTXO entry, giving
ErrMissingTx — leaves the previous main chain as the tip with the state
unchanged (second conjunct), as the concrete double-spend-across-fork
scenario exercises end to end (third conjunct). -/
theorem c2_side_chain_deferred_validation :
    (∀ (bc : BlockChain) (b : Blk),
      b.prevHash ≠ bestTipHash bc →
      parentKnown bc b.prevHash = true →
      b.height ≤ bestHeight bc →
      processBlock bc b =
        ({ bc with index := b :: bc.index }, .sideAccepted)) ∧
    (∀ (bc : BlockChain) (b : Blk) (forkHash : Nat) (bs : List Blk) (e : Err),
      b.prevHash ≠ bestTipHash bc →
      parentKnown bc b.prevHash = true →
      bestHeight bc < b.height →
      walkBranch bc.index (mainHashes bc) bc.genesisHash b.height
        b.prevHash = some (forkHash, bs) →
      applyChain (undoChain bc.st (splitMain bc forkHash).2) (bs ++ [b]) =
        .error e →
      processBlock bc b =
        ({ bc with index := b :: bc.index }, .rejected e)) ∧
    (applyBlock chainMain.st blkSide = .error .errMissingTx ∧
      processBlock chainMain blkSide = (chainSide, .sideAccepted) ∧
      (processBlock chainSide blkChild).2 = .rejected .errMissingTx ∧
      (processBlock chainSide blkChild).1.st = chainSide.st ∧
      (processBlock chainSide blkChild).1.main = chainSide.main ∧
      bestTipHash (processBlock chainSide blkChild).1 = blkMain2.hash) := by
  refine ⟨fun bc b h1 h2 h3 => ?_, fun bc b forkHash bs e h1 h2 h3 h4 h5 => ?_,
    rfl, rfl, rfl, rfl, rfl, rfl⟩
  · unfold processBlock
    rw [if_neg h1, h2]
    simp only [Bool.not_true, Bool.false_eq_true, if_false, ite_false]
    rw [if_pos h3]
  · unfold processBlock
    rw [if_neg h1, h2]
    simp only [Bool.not_true, Bool.false_eq_true, if_false, ite_false]
    rw [if_neg (by omega), h4]
    dsimp only
    rw [h5]

/-- Witness for c2_side_chain_deferred_validation at the concrete
double-spend scenario: the invalid side block is accepted to the side
chain, and its child's reorganization is rejected with ErrMissingTx. -/
theorem c2_side_chain_deferred_validation_witness :
    processBlock chainMain blkSide = (chainSide, .sideAccepted) ∧
      processBlock chainSide blkChild =
        ({ chainSide with index := blkChild :: chainSide.index },
          .rejected .errMissingTx) :=
  ⟨c2_side_chain_deferred_validation.1 chainMain blkSide (by decide)
      (by decide) (by decide),
    c2_side_chain_deferred_validation.2.1 chainSide blkChild 1 [blkSide]
      .errMissingTx (by decide) (by decide) (by decide) (by decide) (by rfl)⟩

end Dmgd














